import Mathlib

/-!
Verification development for the scilifelab production-management core:
the directory-layout conversion and sample-lifecycle engine
(`scilifelab/pm/core/production.py`) and its dry-run-safe filesystem
primitives (`scilifelab/utils/dry.py`).

Python strings are modelled as Lean `String`; filesystem state is modelled
explicitly as data passed through the embedded operations.  Python's `str.find`
and `str.replace` are embedded exactly (including `find`'s -1-on-absence and
`replace`'s replace-all-occurrences semantics), because the source code's
behaviour hinges on them.
-/

namespace Scilifelab

/-! ## Python string primitives -/

/-- First index at which `pat` occurs as a sublist of `s`, or `none`. -/
def findIdx? : List Char → List Char → Option Nat
  | l, pat =>
    if pat.isPrefixOf l then some 0
    else
      match l with
      | [] => none
      | _ :: t => (findIdx? t pat).map (· + 1)

/-- Python `s.find(pat)`: index of the first occurrence of `pat` in `s`, or -1. -/
def pyFind (s pat : String) : Int :=
  match findIdx? s.data pat.data with
  | some n => (n : Int)
  | none => -1

/-- Replace every (non-overlapping, leftmost-first) occurrence of the
non-empty pattern `pat` in `s` by `new`, as Python `str.replace` does.  The
recursion is driven by a character budget so the definition is structurally
recursive (and so evaluates inside the kernel); every step consumes at least
one character of `s`, so a budget of `s.length` is exact. -/
def replaceAllFuel : Nat → List Char → List Char → List Char → List Char
  | 0, s, _, _ => s
  | _, [], _, _ => []
  | fuel + 1, c :: rest, pat, new =>
    if pat ≠ [] ∧ pat.isPrefixOf (c :: rest) then
      new ++ replaceAllFuel fuel ((c :: rest).drop pat.length) pat new
    else
      c :: replaceAllFuel fuel rest pat new

def replaceAll (s pat new : List Char) : List Char :=
  replaceAllFuel s.length s pat new

/-- Python `s.replace(pat, new)`.  With an empty pattern Python inserts `new`
before every character and at the end; that case is embedded too. -/
def pyReplace (s pat new : String) : String :=
  if pat.data = [] then
    ⟨new.data ++ (s.data.flatMap fun c => c :: new.data)⟩
  else
    ⟨replaceAll s.data pat.data new.data⟩

/-! ## Extension stripping and sequence-file pruning

`strip_extensions` lives in `scilifelab/utils/string.py`, outside the sources
under verification.  Modelled from the spec: "An extension-stripping helper
returning (stem, extension) for a path, optionally stripping a named extension
first"; as used by `_prune_sequence_files` with the extension list `[".gz"]`,
it strips a single trailing `.gz` (if present) from the path, returning the
stem and the stripped extension. -/

def gzChars : List Char := ['.', 'g', 'z']

/-- Modelled from the spec: `strip_extensions(x, ['.gz'])` returns
`(stem, ".gz")` when `x` ends in `.gz`, else `(x, "")`. -/
def strip_extensions (x : String) : String × String :=
  if gzChars.isSuffixOf x.data then
    (⟨x.data.take (x.data.length - 3)⟩, ".gz")
  else
    (x, "")

/-- Stem of a path after stripping a single trailing `.gz`. -/
def gzStem (x : String) : String := (strip_extensions x).1

/-- Does the input list contain a `.gz` variant whose stem is `s`? -/
def hasGzVariant (flist : List String) (s : String) : Bool :=
  flist.any fun x => (gzStem x == s) && ((strip_extensions x).2 == ".gz")

/-- The path emitted for one stem group: `stem ++ ".gz"` when a `.gz` variant
of the stem occurs in the input, else the stem itself. -/
def gzTarget (flist : List String) (s : String) : String :=
  if hasGzVariant flist s then s ++ ".gz" else s

/-- Embedding of `ProductionController._prune_sequence_files`: group the input
paths by their `.gz`-stripped stem; for each distinct stem emit `stem ++ ".gz"`
when a `.gz` variant was seen for that stem, else the stem itself (which for a
stem with no `.gz` variant is the original, unstripped path).  The Python
source builds the groups in a `dict`, whose iteration order is unspecified in
the source's Python; the embedding fixes one enumeration order of the distinct
stems. -/
def prune_sequence_files (flist : List String) : List String :=
  ((flist.map gzStem).dedup).map (gzTarget flist)

/-! ## Filesystem model

A flat model of the filesystem: an association list of regular files
(path, content) and a list of directory paths.  A path `q` is *under* a
directory `p` when `p ++ "/"` is a prefix of `q`. -/

/-- Python values returned by the dry-run primitives: `None` or a string. -/
inductive PyVal where
  | pyNone
  | str (s : String)
deriving DecidableEq, Repr

/-- Result of one primitive call: a returned value or a raised exception. -/
inductive Outcome where
  | ret (v : PyVal)
  | raised (msg : String)
deriving DecidableEq, Repr

structure FS where
  files : List (String × String)
  dirs : List String
deriving DecidableEq, Repr

def FS.isFile (fs : FS) (p : String) : Bool :=
  fs.files.any fun kv => kv.1 == p

def FS.fileContent (fs : FS) (p : String) : Option String :=
  (fs.files.find? fun kv => kv.1 == p).map (·.2)

def FS.isDir (fs : FS) (p : String) : Bool :=
  fs.dirs.contains p

/-- `os.path.exists`: true for files and directories alike. -/
def FS.pathExists (fs : FS) (p : String) : Bool :=
  fs.isFile p || fs.isDir p

def FS.unlink (fs : FS) (p : String) : FS :=
  { fs with files := fs.files.filter fun kv => kv.1 != p }

/-- `open(p, "w")` followed by writing `c`: truncates or creates `p`. -/
def FS.writeFile (fs : FS) (p c : String) : FS :=
  { fs with files := (p, c) :: (fs.files.filter fun kv => kv.1 != p) }

/-- Is `q` strictly below directory `p`? -/
def underDir (p q : String) : Bool :=
  (p ++ "/").data.isPrefixOf q.data

/-- A directory is empty when no file and no other directory lies below it. -/
def FS.dirEmpty (fs : FS) (p : String) : Bool :=
  (fs.files.all fun kv => !underDir p kv.1) && (fs.dirs.all fun d => !underDir p d)

/-- `os.rmdir(p)` succeeds only on an empty directory; the caller in `dry.py`
swallows the failure, so the model leaves the state unchanged on failure. -/
def FS.rmdirIfEmpty (fs : FS) (p : String) : FS :=
  if fs.dirEmpty p then { fs with dirs := fs.dirs.filter (· != p) } else fs

/-- Split a character list at every `/`. -/
def splitSegsChars (l : List Char) : List (List Char) :=
  l.foldr
    (fun c acc =>
      if c = '/' then [] :: acc
      else
        match acc with
        | [] => [[c]]
        | a :: as => (c :: a) :: as)
    [[]]

/-- The segments of a `/`-separated path. -/
def splitSegs (p : String) : List String :=
  (splitSegsChars p.data).map fun l => ⟨l⟩

/-- Join segments with `/`. -/
def joinSlash : List String → String
  | [] => ""
  | [a] => a
  | a :: rest => a ++ "/" ++ joinSlash rest

/-- Every cumulative prefix of a path at `/` boundaries, the path itself
included: the directories `os.makedirs` brings into existence. -/
def pathPrefixList (p : String) : List String :=
  ((List.range (splitSegs p).length).map fun i =>
    joinSlash ((splitSegs p).take (i + 1))).filter (· != "")

/-- `os.makedirs(p)`: create `p` and all intermediate segments. -/
def FS.mkdirAll (fs : FS) (p : String) : FS :=
  { fs with dirs := pathPrefixList p ++ fs.dirs }

/-! ## Dry-run-aware primitives (`scilifelab/utils/dry.py`) -/

/-- Python `str(x)` on an optional string (`None` prints as `"None"`). -/
def pyStrOpt : Option String → String
  | none => "None"
  | some s => s

/-- Embedding of `dry.dry`: when `dry_run` is set, perform nothing and return
the descriptive string; otherwise run `func` against the filesystem. -/
def dry (message : String) (func : FS → FS × Outcome) (dry_run : Bool) (fs : FS) :
    FS × Outcome :=
  if dry_run then
    (fs, .ret (.str ("(DRY_RUN): " ++ message ++ "\n")))
  else
    func fs

/-- Embedding of `dry.dry_unlink`.  The `runpipe` body: `None` file names and
missing paths are no-ops (with a warning); otherwise the file is unlinked.
An existing path that is not a regular file makes `os.unlink` itself fail,
and that failure is not swallowed. -/
def dry_unlink (fn : Option String) (dry_run : Bool) (fs : FS) : FS × Outcome :=
  dry ("removing file " ++ pyStrOpt fn)
    (fun fs =>
      match fn with
      | none => (fs, .ret .pyNone)
      | some f =>
        if !fs.pathExists f then (fs, .ret .pyNone)
        else if fs.isFile f then (fs.unlink f, .ret .pyNone)
        else (fs, .raised ("unlink failed on " ++ f)))
    dry_run fs

/-- Embedding of `dry.dry_rmdir`.  Missing paths and non-directories are
no-ops; for a directory, `os.rmdir` is attempted and any failure (a non-empty
directory) is swallowed. -/
def dry_rmdir (dname : Option String) (dry_run : Bool) (fs : FS) : FS × Outcome :=
  dry ("removing directory " ++ pyStrOpt dname)
    (fun fs =>
      match dname with
      | none => (fs, .ret .pyNone)
      | some d =>
        if !fs.pathExists d then (fs, .ret .pyNone)
        else if fs.isDir d then (fs.rmdirIfEmpty d, .ret .pyNone)
        else (fs, .ret .pyNone))
    dry_run fs

/-- Embedding of `dry.dry_write`: refuses (warns, leaves the file untouched)
when the target already exists, otherwise writes the full content.  The
embedding assumes the enclosing directory exists, which the callers establish
through `safe_makedir` before writing. -/
def dry_write (fn : Option String) (data : String) (dry_run : Bool) (fs : FS) :
    FS × Outcome :=
  dry ("writing data to file " ++ pyStrOpt fn)
    (fun fs =>
      match fn with
      | none => (fs, .ret .pyNone)
      | some f =>
        if fs.pathExists f then (fs, .ret .pyNone)
        else (fs.writeFile f data, .ret .pyNone))
    dry_run fs

/-- Embedding of `dry.dry_backup`: copy `fn` to `fn ++ ext` unless the backup
target already exists.  The source's log message is built with one format
placeholder and two arguments, so the backup name is absent from it; the
embedding reproduces the message faithfully.  `shutil.copyfile` on a missing
source raises, and that failure is not swallowed. -/
def dry_backup (fn : Option String) (ext : String) (dry_run : Bool) (fs : FS) :
    FS × Outcome :=
  dry ("making backup of file " ++ pyStrOpt fn ++ " as ")
    (fun fs =>
      match fn with
      | none => (fs, .ret .pyNone)
      | some f =>
        if fs.pathExists (f ++ ext) then (fs, .ret .pyNone)
        else
          match fs.fileContent f with
          | some c => (fs.writeFile (f ++ ext) c, .ret .pyNone)
          | none => (fs, .raised ("copyfile failed on " ++ f)))
    dry_run fs

/-- Embedding of `dry.dry_makedir`.  The two failure modes of `os.makedirs`
are threaded in explicitly: `race` stands for a concurrent creation of the
directory between the existence check and the create call (`os.makedirs`
raises `OSError`, but the path is a directory afterwards, so the exception is
swallowed); `failOther` stands for any other creation failure (the path is
still not a directory, so the exception propagates). -/
def dry_makedir (dname : String) (dry_run : Bool) (race failOther : Bool)
    (fs : FS) : FS × Outcome :=
  dry ("Make directory " ++ dname)
    (fun fs =>
      if !fs.pathExists dname then
        if race then (fs.mkdirAll dname, .ret (.str dname))
        else if failOther then (fs, .raised ("makedirs failed on " ++ dname))
        else (fs.mkdirAll dname, .ret (.str dname))
      else
        (fs, .ret (.str dname)))
    dry_run fs

/-- Python `str` of a one-element list of a string, as produced by
`str(cmd)` in `dry.dry_rsync`'s call to `dry`. -/
def pyReprList1 (s : String) : String :=
  let q : String := ⟨[Char.ofNat 39]⟩
  "[" ++ q ++ s ++ q ++ "]"

/-- Embedding of `dry.dry_rsync`.  A `None` source or target returns `None`
before the `dry` wrapper is ever reached.  The external subprocess is an
explicit parameter `exec` yielding (new filesystem, stdout, stderr, return
code). -/
def dry_rsync (src tgt : Option String) (options : String)
    (dry_run ignore_error capture : Bool)
    (exec : FS → FS × String × String × Nat) (fs : FS) : FS × Outcome :=
  match src, tgt with
  | some s, some t =>
    let cmdStr := "rsync " ++ options ++ " " ++ s ++ " " ++ t
    dry (pyReprList1 cmdStr)
      (fun fs =>
        let (fs2, stdout, _stderr, returncode) := exec fs
        if returncode != 0 && !ignore_error then
          (fs2, .raised ("Subprocess return code: " ++ toString returncode))
        else if capture then (fs2, .ret (.str stdout))
        else (fs2, .ret .pyNone))
      dry_run fs
  | _, _ => (fs, .ret .pyNone)

/-! ## Production controller (`scilifelab/pm/core/production.py`) -/

def FINISHED_FILE : String := "FINISHED_AND_DELIVERED"
def REMOVED_FILE : String := "FINISHED_AND_REMOVED"

/-- `os.path.join` for a relative right component. -/
def pathJoin (a b : String) : String := a ++ "/" ++ b

/-- State of one sample directory as `touch_finished` sees it: whether the
directory exists, and the content of its `FINISHED_AND_DELIVERED` marker. -/
structure SampleDir where
  dirExists : Bool
  finishedMarker : Option String
deriving DecidableEq, Repr

/-- Embedding of the per-sample body of `ProductionController.touch_finished`.
`out` is the captured output of the rsync invocation against the QC root;
`confirm` is the outcome of `query_yes_no` (forced to true by `--force`);
`utc` is the timestamp `utc_time()` returns.  The source's gate is
`if not self.pargs.dry_run and not out.find("total size is 0"): continue`,
where Python's `not out.find(pat)` is true exactly when `find` returns 0,
i.e. when the output *starts with* the pattern.  The marker is written with a
plain `open(..., "w")`, not through a dry-run-safe primitive. -/
def touch_finished_sample (dry_run confirm : Bool) (out utc : String)
    (d : SampleDir) : SampleDir :=
  if !d.dirExists then d
  else if !dry_run && (pyFind out "total size is 0" == 0) then d
  else if confirm then { d with finishedMarker := some utc }
  else d

/-- Modelled from the spec: `filtered_walk` (an external helper, "a filtered
recursive directory walker returning files or directories matching a
predicate") with the always-true predicate used by `remove_finished`: all
file paths below `spath`. -/
def filtered_walk_files (fs : FS) (spath : String) : List String :=
  (fs.files.map (·.1)).filter fun p => underDir spath p

/-- Modelled from the spec: `filtered_walk` with `get_dirs=True` and the
always-true predicate: all directory paths strictly below `spath`. -/
def filtered_walk_dirs (fs : FS) (spath : String) : List String :=
  fs.dirs.filter fun d => underDir spath d

/-- Python compares characters by code point.  An explicitly computable
comparison, so that sorted orders evaluate inside the kernel. -/
def charLt (a b : Char) : Bool := decide (a.val.toNat < b.val.toNat)

/-- Lexicographic (code-point) string comparison, Python's `<=` on `str`. -/
def charListLe : List Char → List Char → Bool
  | [], _ => true
  | _ :: _, [] => false
  | a :: as, b :: bs =>
    if charLt a b then true
    else if charLt b a then false
    else charListLe as bs

/-- The descending order `sorted(dlist, reverse=True)` uses. -/
def descStrRel (a b : String) : Prop := charListLe b.data a.data = true

instance : DecidableRel descStrRel :=
  fun _ _ => inferInstanceAs (Decidable (_ = true))

/-- Python `sorted(l, reverse=True)` on strings: descending lexicographic
order (stable, which for equal strings is observationally irrelevant). -/
def sortDescStrings (l : List String) : List String :=
  l.insertionSort descStrRel

/-- The order in which `remove_finished` attempts directory removals for the
sample at `spath`: `sorted(dlist, reverse=True)`. -/
def remove_finished_dir_order (fs : FS) (spath : String) : List String :=
  sortDescStrings (filtered_walk_dirs fs spath)

/-- The unlink loop of `remove_finished`: every walked file except the
`FINISHED_AND_DELIVERED` marker goes through `safe_unlink` (the dry-run-aware
unlink primitive). -/
def unlinkPhase (flist : List String) (marker : String) (dry_run : Bool)
    (fs : FS) : FS :=
  flist.foldl
    (fun acc f => if f == marker then acc else (dry_unlink (some f) dry_run acc).1)
    fs

/-- The rmdir loop of `remove_finished`: each directory goes through
`safe_rmdir` (the dry-run-aware, failure-swallowing rmdir primitive). -/
def rmdirPhase (order : List String) (dry_run : Bool) (fs : FS) : FS :=
  order.foldl (fun acc d => (dry_rmdir (some d) dry_run acc).1) fs

/-- Embedding of the per-sample-directory body of
`ProductionController.remove_finished`.  `app.cmd.safe_unlink` and
`app.cmd.safe_rmdir` are modelled from the spec as the dry-run-aware
primitives of `dry.py` (§4.5: every mutation goes through the Safe Operation
Primitives); their outcome values are discarded as in the source, and on the
well-formed states of the theorems below no call fails.  The final marker is
written with a plain `open(..., "w")`, guarded by `dry_run`. -/
def remove_finished_sample (dry_run confirm : Bool) (utc : String)
    (spath : String) (fs : FS) : FS :=
  if !fs.isDir spath then fs
  else if !fs.pathExists (pathJoin spath FINISHED_FILE) then fs
  else
    let flist := filtered_walk_files fs spath
    if fs.pathExists (pathJoin spath REMOVED_FILE) then fs
    else if decide (flist.length > 0) && !confirm then fs
    else
      let fs1 := unlinkPhase flist (pathJoin spath FINISHED_FILE) dry_run fs
      let fs2 := rmdirPhase (remove_finished_dir_order fs spath) dry_run fs1
      if !dry_run then fs2.writeFile (pathJoin spath REMOVED_FILE) utc else fs2

/-! ## Flowcell data model and the transfer planner

`Flowcell` lives in `scilifelab/bcbio/flowcell.py`, outside the sources under
verification.  Modelled from the spec (§3): a flowcell identifies one
sequencing run, has a filesystem root path and a flowcell id (`fc_id()`), and
owns sample records with `lane`, `sequence`, `name`, `sample_prj`, `files`
and `results`. -/

structure Sample where
  lane : Nat
  seqIdx : Nat
  name : String
  sample_prj : String
  files : List String
  results : List String
deriving DecidableEq, Repr

structure Flowcell where
  path : String
  fcId : String
  samples : List Sample
deriving DecidableEq, Repr

/-- Modelled from the spec: `Flowcell.as_yaml`, the external YAML
serialization of the whole per-run metadata record (every sample record is
rendered).  Only its functional dependence on the full record set matters to
the claims; the embedding renders each sample with `Repr` and concatenates. -/
def Flowcell.as_yaml (fc : Flowcell) : String :=
  String.intercalate "\n" (fc.samples.map fun s => reprStr s)

/-- The flowcell as rewritten by `_to_pre_casava_structure`'s `set_entry`
calls: each sample's `files` replaced by its pruned, retargeted file list and
its `results` by the retargeted result list. -/
def retargetFlowcell (dataDir intermediateDir : String) (fc : Flowcell) : Flowcell :=
  { fc with
    samples := fc.samples.map fun s =>
      { s with
        files := (prune_sequence_files s.files).map fun src =>
          pyReplace src fc.path dataDir
        results := s.results.map fun src =>
          pyReplace src fc.path intermediateDir } }

/-- The plan `_to_pre_casava_structure` produces: the two output directories,
the (source, target) pairs it copies, and the metadata files it writes. -/
structure PreCasavaPlan where
  dataDir : String
  intermediateDir : String
  fileEntries : List (String × String)
  resultEntries : List (String × String)
  metadataWrites : List (String × String)
deriving DecidableEq, Repr

/-- Embedding of `ProductionController._to_pre_casava_structure`: the data
directory is `<project root>/<project>/data/<fc id>` and the intermediate
directory `<project root>/<project>/intermediate/<fc id>` (with
`--transfer_dir` replacing the project component in both); per sample, pruned
`files` are retargeted into the data directory and `results` into the
intermediate directory by `src.replace(fc.path, dir)`; one metadata file
`project_run_info.yaml` with the whole rewritten flowcell is written into the
data directory.  `os.path.abspath` is the identity on the already-absolute
normalized paths the configuration supplies and is not given a separate
embedding. -/
def to_pre_casava_structure (projectRoot project : String)
    (transfer_dir : Option String) (fc : Flowcell) : PreCasavaPlan :=
  let base := match transfer_dir with
    | some td => td
    | none => project
  let dataDir := pathJoin (pathJoin (pathJoin projectRoot base) "data") fc.fcId
  let intermediateDir :=
    pathJoin (pathJoin (pathJoin projectRoot base) "intermediate") fc.fcId
  { dataDir := dataDir
    intermediateDir := intermediateDir
    fileEntries := fc.samples.flatMap fun s =>
      (prune_sequence_files s.files).map fun src =>
        (src, pyReplace src fc.path dataDir)
    resultEntries := fc.samples.flatMap fun s =>
      s.results.map fun src => (src, pyReplace src fc.path intermediateDir)
    metadataWrites :=
      [(pathJoin dataDir "project_run_info.yaml",
        (retargetFlowcell dataDir intermediateDir fc).as_yaml)] }

/-- Result of one `transfer` invocation. -/
inductive TransferOutcome where
  | refused
  | noData
  | ranPreCasava (plans : List PreCasavaPlan)
  | ranCasava (fcs : List Flowcell)
deriving DecidableEq, Repr

/-- Embedding of `ProductionController.transfer`.  The guard
`if not self.pargs.from_pre_casava and self.pargs.to_pre_casava: warn; return`
runs before any collection or planning.  `pre_fc` stands for the result of
`_from_pre_casava_structure` (a flowcell, or none when no run information was
available) and `casava_fcs` for the list `_from_casava_structure` resolves;
`if not fc: return` maps to the emptiness test.  The casava-destination
branch is represented by the flowcells it would hand to
`_to_casava_structure`, which no claim inspects further. -/
def transfer (from_pre_casava to_pre_casava : Bool) (pre_fc : Option Flowcell)
    (casava_fcs : List Flowcell) (projectRoot project : String)
    (transfer_dir : Option String) : TransferOutcome :=
  if !from_pre_casava && to_pre_casava then .refused
  else
    let fcs : List Flowcell :=
      if from_pre_casava then
        match pre_fc with
        | some fc => [fc]
        | none => []
      else casava_fcs
    if fcs.isEmpty then .noData
    else if to_pre_casava then
      .ranPreCasava (fcs.map (to_pre_casava_structure projectRoot project transfer_dir))
    else .ranCasava fcs

/-- Depth of a path: number of `/` separators. -/
def pathDepth (p : String) : Nat := p.data.count '/'

/-- Is this outcome the descriptive string a dry-run produces? -/
def Outcome.isDryRunStr : Outcome → Bool
  | .ret (.str s) => "(DRY_RUN): ".data.isPrefixOf s.data
  | _ => false

/-! ## Helper lemmas on extension stripping and pruning -/

theorem gz_data : (".gz" : String).data = gzChars := rfl

theorem strip_extensions_append_gz (s : String) :
    strip_extensions (s ++ ".gz") = (s, ".gz") := by
  unfold strip_extensions
  have hd : (s ++ ".gz").data = s.data ++ gzChars := by
    rw [String.data_append, gz_data]
  have hsuf : gzChars.isSuffixOf (s ++ ".gz").data = true := by
    rw [hd]; exact List.isSuffixOf_iff_suffix.mpr (List.suffix_append _ _)
  rw [if_pos hsuf, hd]
  have hlen : (s.data ++ gzChars).length - 3 = s.data.length := by
    simp [List.length_append, gzChars]
  rw [hlen, List.take_left' rfl]

theorem strip_extensions_of_not_gz (s : String)
    (h : gzChars.isSuffixOf s.data = false) : strip_extensions s = (s, "") := by
  simp [strip_extensions, h]

theorem gzStem_append_gz (s : String) : gzStem (s ++ ".gz") = s := by
  simp [gzStem, strip_extensions_append_gz]

theorem gzStem_of_not_gz (s : String) (h : gzChars.isSuffixOf s.data = false) :
    gzStem s = s := by
  simp [gzStem, strip_extensions_of_not_gz s h]

theorem snd_strip_of_gz (s : String) (h : gzChars.isSuffixOf s.data = true) :
    (strip_extensions s).2 = ".gz" := by
  simp [strip_extensions, h]

theorem hasGzVariant_of_mem {x : String} {flist : List String} (hx : x ∈ flist)
    (h2 : (strip_extensions x).2 = ".gz") :
    hasGzVariant flist (gzStem x) = true := by
  unfold hasGzVariant
  rw [List.any_eq_true]
  exact ⟨x, hx, by simp [h2]⟩

theorem stem_not_gz {t : String} {flist : List String}
    (ht : t ∈ flist.map gzStem) (hng : hasGzVariant flist t = false) :
    gzChars.isSuffixOf t.data = false := by
  obtain ⟨x, hx, rfl⟩ := List.mem_map.mp ht
  by_cases h : gzChars.isSuffixOf x.data = true
  · have := hasGzVariant_of_mem hx (snd_strip_of_gz x h)
    rw [this] at hng
    exact absurd hng (by simp)
  · have hx' : gzChars.isSuffixOf x.data = false := by
      cases hh : gzChars.isSuffixOf x.data
      · rfl
      · exact absurd hh h
    rw [gzStem_of_not_gz x hx']
    exact hx'

theorem gzStem_gzTarget {flist : List String} {t : String}
    (ht : t ∈ flist.map gzStem) : gzStem (gzTarget flist t) = t := by
  unfold gzTarget
  cases hgz : hasGzVariant flist t
  · rw [if_neg (by simp)]
    exact gzStem_of_not_gz t (stem_not_gz ht hgz)
  · rw [if_pos rfl]
    exact gzStem_append_gz t

theorem snd_strip_gzTarget {flist : List String} {t : String}
    (ht : t ∈ flist.map gzStem) :
    (strip_extensions (gzTarget flist t)).2
      = (if hasGzVariant flist t then ".gz" else "") := by
  unfold gzTarget
  cases hgz : hasGzVariant flist t
  · rw [if_neg (by simp), if_neg (by simp)]
    rw [strip_extensions_of_not_gz t (stem_not_gz ht hgz)]
  · rw [if_pos rfl, if_pos rfl, strip_extensions_append_gz]

theorem nodup_filter_beq_singleton {α : Type} [DecidableEq α] {l : List α}
    (hn : l.Nodup) {s : α} (hs : s ∈ l) : l.filter (· == s) = [s] := by
  induction l with
  | nil => cases hs
  | cons a l ih =>
    rw [List.nodup_cons] at hn
    rcases List.mem_cons.mp hs with rfl | hsl
    · rw [List.filter_cons_of_pos (by simp)]
      have : l.filter (· == s) = [] := by
        rw [List.filter_eq_nil_iff]
        intro b hb
        simp only [beq_iff_eq]
        intro hbs
        exact hn.1 (hbs ▸ hb)
      rw [this]
    · have has : (a == s) = false := by
        simp only [beq_eq_false_iff_ne, ne_eq]
        intro h
        exact hn.1 (h ▸ hsl)
      rw [List.filter_cons_of_neg (by simp [has])]
      exact ih hn.2 hsl

/-- C3: for every input list and every distinct stem occurring in it, the
pruned output contains exactly one path with that stem, namely
`stem ++ ".gz"` when a `.gz` variant of the stem is in the input and the
stem's original (non-gz) path otherwise; and an input with no `.gz` files is
unchanged as a set. -/
theorem C3_prune_per_stem (flist : List String) :
    (∀ s ∈ flist.map gzStem,
      (prune_sequence_files flist).filter (fun y => gzStem y == s)
        = [if hasGzVariant flist s then s ++ ".gz" else s])
    ∧ ((∀ x ∈ flist, gzChars.isSuffixOf x.data = false) →
        ∀ y, y ∈ prune_sequence_files flist ↔ y ∈ flist) := by
  constructor
  · intro s hs
    show (prune_sequence_files flist).filter (fun y => gzStem y == s)
      = [gzTarget flist s]
    unfold prune_sequence_files
    rw [List.filter_map]
    have hcongr :
        ((flist.map gzStem).dedup).filter ((fun y => gzStem y == s) ∘ gzTarget flist)
          = ((flist.map gzStem).dedup).filter (· == s) := by
      apply List.filter_congr
      intro t htd
      simp only [Function.comp]
      rw [gzStem_gzTarget (List.mem_dedup.mp htd)]
    rw [hcongr,
      nodup_filter_beq_singleton (List.nodup_dedup _) (List.mem_dedup.mpr hs)]
    rfl
  · intro hng y
    have hstems : flist.map gzStem = flist := by
      have : ∀ x ∈ flist, gzStem x = x := fun x hx => gzStem_of_not_gz x (hng x hx)
      calc flist.map gzStem = flist.map id := List.map_congr_left this
        _ = flist := List.map_id flist
    have htgt : ∀ t ∈ flist.dedup, gzTarget flist t = t := by
      intro t htd
      unfold gzTarget
      have : hasGzVariant flist t = false := by
        unfold hasGzVariant
        rw [List.any_eq_false]
        intro x hx
        rw [strip_extensions_of_not_gz x (hng x hx)]
        simp
      rw [if_neg (by simp [this])]
    unfold prune_sequence_files
    rw [hstems]
    constructor
    · intro hy
      obtain ⟨t, htd, rfl⟩ := List.mem_map.mp hy
      rw [htgt t htd]
      exact List.mem_dedup.mp htd
    · intro hy
      refine List.mem_map.mpr ⟨y, List.mem_dedup.mpr hy, htgt y (List.mem_dedup.mpr hy)⟩

/-- Witness for C3: on an input holding both `sample_R1.fastq` and
`sample_R1.fastq.gz` the output's only path with that stem is the `.gz`
variant, and a `.gz`-free singleton input is unchanged as a set. -/
theorem C3_prune_per_stem_witness :
    ((prune_sequence_files ["sample_R1.fastq", "sample_R1.fastq.gz"]).filter
        (fun y => gzStem y == "sample_R1.fastq") = ["sample_R1.fastq.gz"])
    ∧ ("x.fastq" ∈ prune_sequence_files ["x.fastq"] ↔ "x.fastq" ∈ ["x.fastq"]) := by
  constructor
  · have h := (C3_prune_per_stem ["sample_R1.fastq", "sample_R1.fastq.gz"]).1
      "sample_R1.fastq" (by decide)
    exact h.trans (by decide)
  · exact (C3_prune_per_stem ["x.fastq"]).2 (by decide) "x.fastq"

theorem stems_prune (flist : List String) :
    (prune_sequence_files flist).map gzStem = (flist.map gzStem).dedup := by
  unfold prune_sequence_files
  rw [List.map_map]
  have : ((flist.map gzStem).dedup).map (gzStem ∘ gzTarget flist)
      = ((flist.map gzStem).dedup).map id := by
    apply List.map_congr_left
    intro t htd
    exact gzStem_gzTarget (List.mem_dedup.mp htd)
  rw [this, List.map_id]

theorem hasGzVariant_prune {flist : List String} {t : String}
    (ht : t ∈ flist.map gzStem) :
    hasGzVariant (prune_sequence_files flist) t = hasGzVariant flist t := by
  cases hgz : hasGzVariant flist t
  · rw [Bool.eq_false_iff]
    intro hany
    obtain ⟨y, hy, hpred⟩ := List.any_eq_true.mp hany
    obtain ⟨u, hud, rfl⟩ := List.mem_map.mp hy
    have hu : u ∈ flist.map gzStem := List.mem_dedup.mp hud
    rw [Bool.and_eq_true, beq_iff_eq, beq_iff_eq] at hpred
    obtain ⟨h1, h2⟩ := hpred
    rw [gzStem_gzTarget hu] at h1
    subst h1
    rw [snd_strip_gzTarget hu, hgz, if_neg (by simp)] at h2
    exact absurd h2 (by decide)
  · unfold hasGzVariant
    rw [List.any_eq_true]
    refine ⟨gzTarget flist t, List.mem_map.mpr ⟨t, List.mem_dedup.mpr ht, rfl⟩, ?_⟩
    rw [Bool.and_eq_true, beq_iff_eq, beq_iff_eq]
    exact ⟨gzStem_gzTarget ht, by rw [snd_strip_gzTarget ht, hgz, if_pos rfl]⟩

theorem prune_prune (flist : List String) :
    prune_sequence_files (prune_sequence_files flist) = prune_sequence_files flist := by
  have h1 : prune_sequence_files (prune_sequence_files flist)
      = (((prune_sequence_files flist).map gzStem).dedup).map
          (gzTarget (prune_sequence_files flist)) := rfl
  rw [h1, stems_prune, List.dedup_eq_self.mpr (List.nodup_dedup _)]
  have : ((flist.map gzStem).dedup).map (gzTarget (prune_sequence_files flist))
      = ((flist.map gzStem).dedup).map (gzTarget flist) := by
    apply List.map_congr_left
    intro t htd
    unfold gzTarget
    rw [hasGzVariant_prune (List.mem_dedup.mp htd)]
  rw [this]
  rfl

/-- C7: the sequence-file deduplicator is idempotent: applied to its own
output it yields the same set of paths (in fact the same list). -/
theorem C7_prune_idempotent (flist : List String) :
    ∀ y, y ∈ prune_sequence_files (prune_sequence_files flist)
      ↔ y ∈ prune_sequence_files flist := by
  intro y
  rw [prune_prune]

/-! ## Claims about the dry-run primitives -/

/-- C4 (amended): with `dry_run` set, every primitive leaves the filesystem
untouched and returns the string `"(DRY_RUN): " ++ message ++ "\n"`; the one
exception is `dry_rsync` invoked with a `None` source or target, which
returns `None` before the `dry` wrapper runs — still without any mutation. -/
theorem C4_dry_run_no_mutation (fn dname : Option String)
    (data ext options dnm s t : String) (race failOther ignore_error capture : Bool)
    (exec : FS → FS × String × String × Nat) (fs : FS) :
    dry_unlink fn true fs
      = (fs, .ret (.str ("(DRY_RUN): " ++ ("removing file " ++ pyStrOpt fn) ++ "\n")))
    ∧ dry_rmdir dname true fs
      = (fs, .ret (.str ("(DRY_RUN): " ++ ("removing directory " ++ pyStrOpt dname) ++ "\n")))
    ∧ dry_write fn data true fs
      = (fs, .ret (.str ("(DRY_RUN): " ++ ("writing data to file " ++ pyStrOpt fn) ++ "\n")))
    ∧ dry_backup fn ext true fs
      = (fs, .ret (.str ("(DRY_RUN): " ++ ("making backup of file " ++ pyStrOpt fn ++ " as ") ++ "\n")))
    ∧ dry_makedir dnm true race failOther fs
      = (fs, .ret (.str ("(DRY_RUN): " ++ ("Make directory " ++ dnm) ++ "\n")))
    ∧ dry_rsync (some s) (some t) options true ignore_error capture exec fs
      = (fs, .ret (.str ("(DRY_RUN): "
          ++ pyReprList1 ("rsync " ++ options ++ " " ++ s ++ " " ++ t) ++ "\n")))
    ∧ dry_rsync none (some t) options true ignore_error capture exec fs
      = (fs, .ret .pyNone)
    ∧ dry_rsync (some s) none options true ignore_error capture exec fs
      = (fs, .ret .pyNone)
    ∧ dry_rsync none none options true ignore_error capture exec fs
      = (fs, .ret .pyNone) :=
  ⟨rfl, rfl, rfl, rfl, rfl, rfl, rfl, rfl, rfl⟩

/-- Counterexample to C4 as stated: `dry_rsync` called with `dry_run = true`
but a `None` source returns `None`, not the descriptive dry-run string. -/
theorem C4_rsync_none_counterexample :
    dry_rsync none (some "tgt") "-av" true false true (fun fs => (fs, "", "", 0))
        ⟨[("f", "c")], ["d"]⟩
      = (⟨[("f", "c")], ["d"]⟩, .ret .pyNone)
    ∧ Outcome.isDryRunStr
        (dry_rsync none (some "tgt") "-av" true false true (fun fs => (fs, "", "", 0))
          ⟨[("f", "c")], ["d"]⟩).2 = false :=
  ⟨rfl, rfl⟩

/-- C8: with `dry_run = false`, the write primitive leaves an existing target
untouched (the whole filesystem state is unchanged), and writes exactly the
given content when the target does not exist. -/
theorem C8_dry_write_no_overwrite (f data : String) (fs : FS) :
    (fs.pathExists f = true →
      dry_write (some f) data false fs = (fs, .ret .pyNone))
    ∧ (fs.pathExists f = false →
        dry_write (some f) data false fs = (fs.writeFile f data, .ret .pyNone)
        ∧ (fs.writeFile f data).fileContent f = some data) := by
  refine ⟨fun h => by simp [dry_write, dry, h], fun h => ⟨by simp [dry_write, dry, h], ?_⟩⟩
  unfold FS.writeFile FS.fileContent
  rw [List.find?_cons_of_pos _ (by simp)]
  rfl

/-- Witness for C8 at concrete states: an existing `p` is not overwritten,
and a fresh `q` receives exactly the given data. -/
theorem C8_dry_write_no_overwrite_witness :
    (dry_write (some "p") "new" false ⟨[("p", "old")], []⟩
      = (⟨[("p", "old")], []⟩, .ret .pyNone))
    ∧ ((⟨[], []⟩ : FS).writeFile "q" "data").fileContent "q" = some "data" :=
  ⟨(C8_dry_write_no_overwrite "p" "new" ⟨[("p", "old")], []⟩).1 (by decide),
   ((C8_dry_write_no_overwrite "q" "data" ⟨[], []⟩).2 (by decide)).2⟩

/-- C9: with `dry_run = false`, the make-directory primitive is a no-op when
the path already exists, otherwise creates the directory with all its
intermediate segments; an "already exists" failure caused by a concurrent
creation is swallowed, while any other creation failure propagates. -/
theorem C9_dry_makedir_tolerates_race (dname : String) (race failOther : Bool)
    (fs : FS) :
    (fs.pathExists dname = true →
      dry_makedir dname false race failOther fs = (fs, .ret (.str dname)))
    ∧ (fs.pathExists dname = false → race = false → failOther = false →
        dry_makedir dname false race failOther fs
          = (fs.mkdirAll dname, .ret (.str dname))
        ∧ ∀ q ∈ pathPrefixList dname, (fs.mkdirAll dname).isDir q = true)
    ∧ (fs.pathExists dname = false → race = true →
        dry_makedir dname false race failOther fs
          = (fs.mkdirAll dname, .ret (.str dname)))
    ∧ (fs.pathExists dname = false → race = false → failOther = true →
        (dry_makedir dname false race failOther fs).2
          = .raised ("makedirs failed on " ++ dname)
        ∧ (dry_makedir dname false race failOther fs).1 = fs) := by
  refine ⟨fun h => by simp [dry_makedir, dry, h], fun h hr hf => ⟨?_, ?_⟩,
    fun h hr => ?_, fun h hr hf => ?_⟩
  · simp [dry_makedir, dry, h, hr, hf]
  · intro q hq
    unfold FS.mkdirAll FS.isDir
    simp only [List.contains_eq_any_beq, List.any_eq_true]
    exact ⟨q, List.mem_append_left _ hq, by simp⟩
  · subst hr; simp [dry_makedir, dry, h]
  · subst hr hf; simp [dry_makedir, dry, h]

/-- Witness for C9 at concrete states: existing directory is a no-op, a fresh
`a/b` creates the intermediate segment `a`, a raced creation returns without
error, any other failure raises. -/
theorem C9_dry_makedir_tolerates_race_witness :
    (dry_makedir "a/b" false false false ⟨[], ["a/b"]⟩
      = (⟨[], ["a/b"]⟩, .ret (.str "a/b")))
    ∧ ((⟨[], []⟩ : FS).mkdirAll "a/b").isDir "a" = true
    ∧ (dry_makedir "a/b" false true false ⟨[], []⟩
        = ((⟨[], []⟩ : FS).mkdirAll "a/b", .ret (.str "a/b")))
    ∧ (dry_makedir "a/b" false false true ⟨[], []⟩).2
        = .raised ("makedirs failed on " ++ "a/b") :=
  ⟨(C9_dry_makedir_tolerates_race "a/b" false false ⟨[], ["a/b"]⟩).1 (by decide),
   ((C9_dry_makedir_tolerates_race "a/b" false false ⟨[], []⟩).2.1 (by decide) rfl rfl).2
     "a" (by decide),
   (C9_dry_makedir_tolerates_race "a/b" true false ⟨[], []⟩).2.2.1 (by decide) rfl,
   ((C9_dry_makedir_tolerates_race "a/b" false true ⟨[], []⟩).2.2.2 (by decide) rfl rfl).1⟩

/-! ## Claims about `touch_finished` -/

/-- C1: evaluation of the embedded `touch_finished` body at the failing
input.  A captured rsync report whose total size is nonzero (it does not
contain "total size is 0" anywhere) passes the gate and the
`FINISHED_AND_DELIVERED` marker is written; a report that *starts* with
"total size is 0" is treated as needing an update and no marker is written.
Both behaviours contradict the claim: the gate `not out.find("total size is
0")` tests `find == 0` (the output starts with the phrase) instead of
substring presence. -/
theorem C1_touch_finished_gate_inverted :
    (touch_finished_sample false true
        "sent 118 bytes  received 35 bytes  total size is 12345  speedup is 80.69"
        "2013-01-01T00:00:00" ⟨true, none⟩).finishedMarker
      = some "2013-01-01T00:00:00"
    ∧ (touch_finished_sample false true
        "total size is 0  speedup is 1.00" "2013-01-01T00:00:00"
        ⟨true, none⟩).finishedMarker
      = none := by
  constructor
  · decide
  · decide

/-- C5: with `dry_run` set, the rsync-cleanliness gate of `touch_finished` is
skipped entirely (the result does not depend on the captured rsync output)
and, when the confirmation passes, the `FINISHED_AND_DELIVERED` marker is
still written — the direct `open(..., "w")` bypasses the dry-run-safe write
primitive, so `dry_run` does not prevent this mutation. -/
theorem C5_touch_finished_dry_run_still_writes (confirm : Bool)
    (out out2 utc : String) (d : SampleDir) (h : d.dirExists = true) :
    touch_finished_sample true confirm out utc d
      = touch_finished_sample true confirm out2 utc d
    ∧ (confirm = true →
        (touch_finished_sample true confirm out utc d).finishedMarker = some utc) := by
  unfold touch_finished_sample
  rw [h]
  refine ⟨by simp, fun hc => ?_⟩
  subst hc
  simp

/-- Witness for C5: a concrete existing sample directory, two different rsync
outputs, confirmation given. -/
theorem C5_touch_finished_dry_run_still_writes_witness :
    touch_finished_sample true true "sent 10 bytes" "T" ⟨true, none⟩
      = touch_finished_sample true true "total size is 0" "T" ⟨true, none⟩
    ∧ (touch_finished_sample true true "sent 10 bytes" "T" ⟨true, none⟩).finishedMarker
      = some "T" :=
  ⟨(C5_touch_finished_dry_run_still_writes true "sent 10 bytes" "total size is 0"
      "T" ⟨true, none⟩ rfl).1,
   (C5_touch_finished_dry_run_still_writes true "sent 10 bytes" "total size is 0"
      "T" ⟨true, none⟩ rfl).2 rfl⟩

/-! ## Claims about the transfer operation -/

/-- Counterexample to C2 as stated: a pre-casava→pre-casava invocation is not
refused (the planner runs), while a casava→pre-casava invocation is the one
the guard refuses. -/
theorem C2_transfer_guard_counterexample :
    transfer true true
        (some ⟨"rt/fc", "FC1", [⟨1, 1, "S1", "P", ["rt/fc/a_R1.fastq"], ["rt/fc/al.bam"]⟩]⟩)
        [] "pr" "P" none
      = TransferOutcome.ranPreCasava
          [to_pre_casava_structure "pr" "P" none
            ⟨"rt/fc", "FC1", [⟨1, 1, "S1", "P", ["rt/fc/a_R1.fastq"], ["rt/fc/al.bam"]⟩]⟩]
    ∧ transfer false true none
        [⟨"rt/fc", "FC1", [⟨1, 1, "S1", "P", ["rt/fc/a_R1.fastq"], ["rt/fc/al.bam"]⟩]⟩]
        "pr" "P" none
      = TransferOutcome.refused :=
  ⟨rfl, rfl⟩

/-- C2 (amended): the transfer operation refuses — before any collection,
planning or mutation — exactly when the source layout is casava
(`from_pre_casava` unset) and the destination is pre-casava (`to_pre_casava`
set); every other flag combination, pre-casava→pre-casava included, passes
this validation. -/
theorem C2_transfer_refusal_iff (fp tp : Bool) (pre_fc : Option Flowcell)
    (cfcs : List Flowcell) (root proj : String) (tdir : Option String) :
    transfer fp tp pre_fc cfcs root proj tdir = TransferOutcome.refused
      ↔ (fp = false ∧ tp = true) := by
  cases fp <;> cases tp <;> simp [transfer] <;> split <;> simp

/-! ## Claims about the pre-casava planner (C10) -/

theorem pyReplace_startsWith (s pat new : String) (h : pat.data <+: s.data) :
    new.data <+: (pyReplace s pat new).data := by
  unfold pyReplace
  by_cases hp : pat.data = []
  · rw [if_pos hp]
    exact List.prefix_append _ _
  · rw [if_neg hp]
    show new.data <+: replaceAll s.data pat.data new.data
    unfold replaceAll
    cases hs : s.data with
    | nil =>
      rw [hs] at h
      exact absurd (List.prefix_nil.mp h) hp
    | cons c rest =>
      rw [hs] at h
      have heq : replaceAllFuel (c :: rest).length (c :: rest) pat.data new.data
          = if pat.data ≠ [] ∧ pat.data.isPrefixOf (c :: rest) then
              new.data
                ++ replaceAllFuel rest.length ((c :: rest).drop pat.data.length)
                    pat.data new.data
            else
              c :: replaceAllFuel rest.length rest pat.data new.data := rfl
      rw [heq, if_pos ⟨hp, List.isPrefixOf_iff_prefix.mpr h⟩]
      exact List.prefix_append _ _

theorem gzChars_length : gzChars.length = 3 := rfl

theorem gz_rest_length {pl rest : List Char}
    (hsuf : gzChars.isSuffixOf (pl ++ '/' :: rest) = true) : 3 ≤ rest.length := by
  have h1 : gzChars <:+ (pl ++ '/' :: rest) := List.isSuffixOf_iff_suffix.mp hsuf
  have h2 : ('/' :: rest) <:+ (pl ++ '/' :: rest) := List.suffix_append pl _
  rcases List.suffix_or_suffix_of_suffix h1 h2 with h3 | h3
  · have h4 := h3.length_le
    rw [gzChars_length, List.length_cons] at h4
    rcases Nat.lt_or_ge rest.length 3 with hlt | hge
    · have hlen2 : gzChars.length = ('/' :: rest).length := by
        rw [gzChars_length, List.length_cons]
        omega
      have heq : gzChars = '/' :: rest := h3.eq_of_length hlen2
      have hhead : ('.' : Char) = '/' := by
        have h5 := congrArg List.headI heq
        simp [gzChars] at h5
      exact absurd hhead (by decide)
    · exact hge
  · have : ('/' : Char) ∈ gzChars := h3.subset (List.mem_cons_self _ _)
    exact absurd this (by decide)

theorem stem_keeps_prefix {p f : String} (h : (p ++ "/").data <+: f.data) :
    (p ++ "/").data <+: (gzStem f).data := by
  have hdata : (p ++ "/").data = p.data ++ ['/'] := by rw [String.data_append]
  by_cases hsuf : gzChars.isSuffixOf f.data = true
  · have hstem : (gzStem f).data = f.data.take (f.data.length - 3) := by
      unfold gzStem strip_extensions
      rw [if_pos hsuf]
    rw [hstem, List.prefix_take_iff]
    refine ⟨h, ?_⟩
    obtain ⟨rest, hrest⟩ := h
    have hf : f.data = p.data ++ '/' :: rest := by
      rw [← hrest, hdata]
      simp
    have h3 : 3 ≤ rest.length := gz_rest_length (hf ▸ hsuf)
    have hflen : f.data.length = p.data.length + 1 + rest.length := by
      rw [hf, List.length_append, List.length_cons]
      omega
    have hlen1 : (p ++ "/").data.length = p.data.length + 1 := by
      rw [hdata, List.length_append]
      simp
    rw [hlen1, hflen]
    omega
  · have hng : gzChars.isSuffixOf f.data = false := by
      cases hh : gzChars.isSuffixOf f.data
      · rfl
      · exact absurd hh hsuf
    rw [gzStem_of_not_gz f hng]
    exact h

theorem prefix_of_prune_mem {p : String} {flist : List String}
    (hall : ∀ f ∈ flist, (p ++ "/").data.isPrefixOf f.data = true)
    {src : String} (hsrc : src ∈ prune_sequence_files flist) :
    p.data.isPrefixOf src.data = true := by
  unfold prune_sequence_files at hsrc
  obtain ⟨u, hud, rfl⟩ := List.mem_map.mp hsrc
  have hu : u ∈ flist.map gzStem := List.mem_dedup.mp hud
  obtain ⟨f, hf, rfl⟩ := List.mem_map.mp hu
  have h1 : (p ++ "/").data <+: (gzStem f).data :=
    stem_keeps_prefix (List.isPrefixOf_iff_prefix.mp (hall f hf))
  have hpp : p.data <+: (p ++ "/").data := by
    rw [String.data_append]
    exact List.prefix_append _ _
  have hp : p.data <+: (gzStem f).data := hpp.trans h1
  apply List.isPrefixOf_iff_prefix.mpr
  unfold gzTarget
  split
  · rw [String.data_append]
    exact hp.trans ((List.prefix_append _ _).trans (by rw [gz_data]))
  · exact hp

/-- C10: for a flowcell whose sample files live strictly below the flowcell
root and whose results carry the root as a prefix, every planned file target
lies under the data directory `<prefix>/data/<fc id>`, every planned result
target lies under the intermediate directory `<prefix>/intermediate/<fc id>`
(targets are obtained by substituting the flowcell root with the respective
directory), and exactly one metadata file, `project_run_info.yaml`
aggregating every sample, is written into the data directory. -/
theorem C10_to_pre_casava_targets (projectRoot project : String)
    (tdir : Option String) (fc : Flowcell)
    (hfiles : ∀ s ∈ fc.samples, ∀ f ∈ s.files,
      (fc.path ++ "/").data.isPrefixOf f.data = true)
    (hresults : ∀ s ∈ fc.samples, ∀ f ∈ s.results,
      fc.path.data.isPrefixOf f.data = true) :
    (∀ e ∈ (to_pre_casava_structure projectRoot project tdir fc).fileEntries,
      ((to_pre_casava_structure projectRoot project tdir fc).dataDir).data.isPrefixOf
        e.2.data = true)
    ∧ (∀ e ∈ (to_pre_casava_structure projectRoot project tdir fc).resultEntries,
        ((to_pre_casava_structure projectRoot project tdir fc).intermediateDir).data.isPrefixOf
          e.2.data = true)
    ∧ (to_pre_casava_structure projectRoot project tdir fc).metadataWrites
        = [(pathJoin (to_pre_casava_structure projectRoot project tdir fc).dataDir
              "project_run_info.yaml",
            (retargetFlowcell (to_pre_casava_structure projectRoot project tdir fc).dataDir
              (to_pre_casava_structure projectRoot project tdir fc).intermediateDir
              fc).as_yaml)]
    ∧ (retargetFlowcell (to_pre_casava_structure projectRoot project tdir fc).dataDir
        (to_pre_casava_structure projectRoot project tdir fc).intermediateDir
        fc).samples.length = fc.samples.length := by
  refine ⟨?_, ?_, rfl, by simp [retargetFlowcell]⟩
  · intro e he
    obtain ⟨s, hsmem, hmap⟩ := List.mem_flatMap.mp he
    obtain ⟨src, hsrc, rfl⟩ := List.mem_map.mp hmap
    apply List.isPrefixOf_iff_prefix.mpr
    exact pyReplace_startsWith _ _ _
      (List.isPrefixOf_iff_prefix.mp (prefix_of_prune_mem (hfiles s hsmem) hsrc))
  · intro e he
    obtain ⟨s, hsmem, hmap⟩ := List.mem_flatMap.mp he
    obtain ⟨src, hsrc, rfl⟩ := List.mem_map.mp hmap
    apply List.isPrefixOf_iff_prefix.mpr
    exact pyReplace_startsWith _ _ _
      (List.isPrefixOf_iff_prefix.mp (hresults s hsmem src hsrc))

/-- Witness for C10: a one-sample flowcell rooted at `rt/fc` with one fastq
pair and one result file. -/
theorem C10_to_pre_casava_targets_witness :
    (∀ e ∈ (to_pre_casava_structure "pr" "P" none
        ⟨"rt/fc", "FC1",
          [⟨1, 1, "S1", "P", ["rt/fc/a_R1.fastq", "rt/fc/a_R1.fastq.gz"],
            ["rt/fc/al.bam"]⟩]⟩).fileEntries,
      ((to_pre_casava_structure "pr" "P" none
        ⟨"rt/fc", "FC1",
          [⟨1, 1, "S1", "P", ["rt/fc/a_R1.fastq", "rt/fc/a_R1.fastq.gz"],
            ["rt/fc/al.bam"]⟩]⟩).dataDir).data.isPrefixOf e.2.data = true)
    ∧ (∀ e ∈ (to_pre_casava_structure "pr" "P" none
        ⟨"rt/fc", "FC1",
          [⟨1, 1, "S1", "P", ["rt/fc/a_R1.fastq", "rt/fc/a_R1.fastq.gz"],
            ["rt/fc/al.bam"]⟩]⟩).resultEntries,
        ((to_pre_casava_structure "pr" "P" none
          ⟨"rt/fc", "FC1",
            [⟨1, 1, "S1", "P", ["rt/fc/a_R1.fastq", "rt/fc/a_R1.fastq.gz"],
              ["rt/fc/al.bam"]⟩]⟩).intermediateDir).data.isPrefixOf e.2.data = true) :=
  ⟨(C10_to_pre_casava_targets "pr" "P" none
      ⟨"rt/fc", "FC1",
        [⟨1, 1, "S1", "P", ["rt/fc/a_R1.fastq", "rt/fc/a_R1.fastq.gz"],
          ["rt/fc/al.bam"]⟩]⟩ (by decide) (by decide)).1,
   (C10_to_pre_casava_targets "pr" "P" none
      ⟨"rt/fc", "FC1",
        [⟨1, 1, "S1", "P", ["rt/fc/a_R1.fastq", "rt/fc/a_R1.fastq.gz"],
          ["rt/fc/al.bam"]⟩]⟩ (by decide) (by decide)).2.1⟩

/-! ## Claims about `remove_finished` (C6): order and state lemmas -/

theorem charLt_irrefl (a : Char) : charLt a a = false := by
  simp [charLt]

theorem charListLe_total : ∀ l m : List Char,
    charListLe l m = true ∨ charListLe m l = true
  | [], _ => Or.inl rfl
  | _ :: _, [] => Or.inr rfl
  | a :: as, b :: bs => by
    cases hab : charLt a b <;> cases hba : charLt b a
    · rcases charListLe_total as bs with h | h
      · exact Or.inl (by simp [charListLe, hab, hba, h])
      · exact Or.inr (by simp [charListLe, hab, hba, h])
    · exact Or.inr (by simp [charListLe, hba])
    · exact Or.inl (by simp [charListLe, hab])
    · exact Or.inl (by simp [charListLe, hab])

theorem charListLe_trans : ∀ l m n : List Char,
    charListLe l m = true → charListLe m n = true → charListLe l n = true
  | [], _, _ => fun _ _ => rfl
  | a :: as, [], n => fun h _ => by cases h
  | _ :: _, _ :: _, [] => fun _ h => by cases h
  | a :: as, b :: bs, c :: cs => fun h1 h2 => by
    simp only [charListLe, charLt, decide_eq_true_eq] at h1 h2 ⊢
    rcases Nat.lt_trichotomy a.val.toNat b.val.toNat with hab | hab | hab
    · rcases Nat.lt_trichotomy b.val.toNat c.val.toNat with hbc | hbc | hbc
      · rw [if_pos (Nat.lt_trans hab hbc)]
      · rw [if_pos (hbc ▸ hab)]
      · rw [if_neg (by omega), if_pos (by omega)] at h2
        cases h2
    · rcases Nat.lt_trichotomy b.val.toNat c.val.toNat with hbc | hbc | hbc
      · rw [if_pos (hab ▸ hbc)]
      · rw [if_neg (by omega), if_neg (by omega)] at h1
        rw [if_neg (by omega), if_neg (by omega)] at h2
        rw [if_neg (by omega), if_neg (by omega)]
        exact charListLe_trans as bs cs h1 h2
      · rw [if_neg (by omega), if_pos (by omega)] at h2
        cases h2
    · rw [if_neg (by omega), if_pos (by omega)] at h1
      cases h1

instance : IsTotal String descStrRel :=
  ⟨fun a b => (charListLe_total b.data a.data).imp id id⟩

instance : IsTrans String descStrRel :=
  ⟨fun _ b _ hab hbc => charListLe_trans _ b.data _ hbc hab⟩

theorem charListLe_append_cons_self : ∀ (l : List Char) (c : Char) (m : List Char),
    charListLe (l ++ c :: m) l = false
  | [], _, _ => rfl
  | a :: l, c, m => by
    simp only [List.cons_append, charListLe, charLt_irrefl, if_false]
    exact charListLe_append_cons_self l c m

theorem underDir_decomp {p q : String} (h : underDir p q = true) :
    ∃ r, q.data = p.data ++ '/' :: r := by
  obtain ⟨rest, hrest⟩ := List.isPrefixOf_iff_prefix.mp h
  refine ⟨rest, ?_⟩
  rw [← hrest, String.data_append]
  simp

theorem underDir_irrefl (d : String) : underDir d d = false := by
  cases hu : underDir d d
  · rfl
  · obtain ⟨r, hr⟩ := underDir_decomp hu
    have := congrArg List.length hr
    simp at this

theorem underDir_not_descLe {d q : String} (h : underDir d q = true) :
    descStrRel d q → False := by
  intro hle
  obtain ⟨r, hr⟩ := underDir_decomp h
  unfold descStrRel at hle
  rw [hr, charListLe_append_cons_self] at hle
  cases hle

theorem underDir_trans {a b c : String} (h1 : underDir a b = true)
    (h2 : underDir b c = true) : underDir a c = true := by
  apply List.isPrefixOf_iff_prefix.mpr
  have g1 : (a ++ "/").data <+: b.data := List.isPrefixOf_iff_prefix.mp h1
  have g2 : (b ++ "/").data <+: c.data := List.isPrefixOf_iff_prefix.mp h2
  have g3 : b.data <+: (b ++ "/").data := by
    rw [String.data_append]
    exact List.prefix_append _ _
  exact (g1.trans g3).trans g2

/-- In the removal order of `remove_finished`, no directory ever precedes one
of its own subdirectories: descendants are removed first. -/
theorem dir_order_pairwise (fs : FS) (spath : String) :
    (remove_finished_dir_order fs spath).Pairwise
      (fun a b => underDir a b = false) := by
  have hs : (remove_finished_dir_order fs spath).Sorted descStrRel :=
    List.sorted_insertionSort _ _
  refine hs.imp ?_
  intro a b hab
  cases hu : underDir a b
  · rfl
  · exact absurd hab (by intro hle; exact underDir_not_descLe hu hle)

theorem dry_unlink_false_state (f : String) (fs : FS) :
    (dry_unlink (some f) false fs).1
      = ⟨fs.files.filter (fun kv => kv.1 != f), fs.dirs⟩ := by
  have hnoop : fs.isFile f = false →
      fs.files.filter (fun kv => kv.1 != f) = fs.files := by
    intro hnf
    rw [List.filter_eq_self]
    intro kv hkv
    have := List.any_eq_false.mp hnf kv hkv
    simpa [bne] using this
  unfold dry_unlink dry
  by_cases hex : fs.pathExists f = true
  · by_cases hisf : fs.isFile f = true
    · simp [hex, hisf, FS.unlink]
    · have hnf : fs.isFile f = false := by
        cases hh : fs.isFile f
        · rfl
        · exact absurd hh hisf
      simp [hex, hnf, hnoop hnf]
  · have hex' : fs.pathExists f = false := by
      cases hh : fs.pathExists f
      · rfl
      · exact absurd hh hex
    have hnf : fs.isFile f = false := by
      cases hh : fs.isFile f
      · rfl
      · exfalso
        have hpe : fs.pathExists f = true := by
          unfold FS.pathExists
          rw [hh, Bool.true_or]
        rw [hpe] at hex'
        cases hex'
    simp [hex', hnoop hnf]

theorem unlinkPhase_false (L : List String) (marker : String) : ∀ fs : FS,
    unlinkPhase L marker false fs
      = ⟨fs.files.filter (fun kv => !(L.contains kv.1 && kv.1 != marker)),
         fs.dirs⟩ := by
  induction L with
  | nil =>
    intro fs
    simp [unlinkPhase]
  | cons a L ih =>
    intro fs
    show unlinkPhase L marker false
        (if a == marker then fs else (dry_unlink (some a) false fs).1)
      = _
    by_cases ha : (a == marker) = true
    · rw [if_pos ha, ih fs]
      have haeq : a = marker := beq_iff_eq.mp ha
      congr 1
      apply List.filter_congr
      intro kv _
      rw [List.contains_cons]
      cases hm : kv.1 == a
      · rw [Bool.false_or]
      · have h1 : (kv.1 != marker) = false := by
          simp [bne, (beq_iff_eq.mp hm).trans haeq]
        rw [Bool.true_or, h1, Bool.and_false, Bool.and_false]
    · have ha' : (a == marker) = false := by
        cases hh : a == marker
        · rfl
        · exact absurd hh ha
      have hanm : a ≠ marker := by
        intro h
        rw [h] at ha'
        simp at ha'
      rw [if_neg (by simp [ha']), dry_unlink_false_state, ih]
      congr 1
      rw [List.filter_filter]
      apply List.filter_congr
      intro kv _
      rw [List.contains_cons]
      cases hm : kv.1 == a
      · rw [Bool.false_or]
        have h1 : (kv.1 != a) = true := by simp [bne, hm]
        rw [h1, Bool.and_true]
      · have hkva : kv.1 = a := beq_iff_eq.mp hm
        have h1 : (kv.1 != marker) = true := by
          simp only [bne, Bool.not_eq_true']
          cases hh : kv.1 == marker
          · rfl
          · exact absurd ((beq_iff_eq.mp hh).symm.trans hkva).symm hanm
        have h2 : (kv.1 != a) = false := by simp [bne, hm]
        rw [Bool.true_or, h1, Bool.and_true, h2, Bool.and_false]
        rfl

theorem dry_rmdir_false_state (d : String) (fs : FS)
    (hf : ∀ kv ∈ fs.files, underDir d kv.1 = false)
    (hd : ∀ q ∈ fs.dirs, underDir d q = false) :
    (dry_rmdir (some d) false fs).1
      = ⟨fs.files, fs.dirs.filter (· != d)⟩ := by
  have hempty : fs.dirEmpty d = true := by
    unfold FS.dirEmpty
    rw [Bool.and_eq_true, List.all_eq_true, List.all_eq_true]
    exact ⟨fun kv hkv => by simp [hf kv hkv], fun q hq => by simp [hd q hq]⟩
  have hnoop : fs.isDir d = false → fs.dirs.filter (· != d) = fs.dirs := by
    intro hnd
    rw [List.filter_eq_self]
    intro q hq
    cases hh : q == d
    · simp [bne, hh]
    · exfalso
      have hqd : q = d := beq_iff_eq.mp hh
      rw [← hqd] at hnd
      have hmem : fs.dirs.contains q = true := List.elem_iff.mpr hq
      rw [show fs.isDir q = fs.dirs.contains q from rfl, hmem] at hnd
      cases hnd
  unfold dry_rmdir dry
  by_cases hex : fs.pathExists d = true
  · by_cases hisd : fs.isDir d = true
    · simp [hex, hisd, FS.rmdirIfEmpty, hempty]
    · have hnd : fs.isDir d = false := by
        cases hh : fs.isDir d
        · rfl
        · exact absurd hh hisd
      simp [hex, hnd, hnoop hnd]
  · have hex' : fs.pathExists d = false := by
      cases hh : fs.pathExists d
      · rfl
      · exact absurd hh hex
    have hnd : fs.isDir d = false := by
      cases hh : fs.isDir d
      · rfl
      · exfalso
        have hpe : fs.pathExists d = true := by
          unfold FS.pathExists
          rw [hh, Bool.or_true]
        rw [hpe] at hex'
        cases hex'
    simp [hex', hnoop hnd]

theorem rmdirPhase_removes : ∀ (S : List String) (fs : FS),
    S.Sorted descStrRel →
    (∀ d ∈ S, ∀ q ∈ fs.dirs, underDir d q = true → q ∈ S) →
    (∀ d ∈ S, ∀ kv ∈ fs.files, underDir d kv.1 = false) →
    rmdirPhase S false fs
      = ⟨fs.files, fs.dirs.filter (fun x => !(S.contains x))⟩ := by
  intro S
  induction S with
  | nil =>
    intro fs _ _ _
    simp [rmdirPhase]
  | cons d S ih =>
    intro fs hsort hc hfiles
    have hs' := List.sorted_cons.mp hsort
    have hstep : (dry_rmdir (some d) false fs).1
        = ⟨fs.files, fs.dirs.filter (· != d)⟩ := by
      apply dry_rmdir_false_state
      · exact hfiles d (List.mem_cons_self _ _)
      · intro q hq
        cases hu : underDir d q
        · rfl
        · exfalso
          have hqS : q ∈ d :: S := hc d (List.mem_cons_self _ _) q hq hu
          rcases List.mem_cons.mp hqS with rfl | hqS'
          · rw [underDir_irrefl] at hu
            cases hu
          · exact underDir_not_descLe hu (hs'.1 q hqS')
    show rmdirPhase S false (dry_rmdir (some d) false fs).1 = _
    rw [hstep, ih ⟨fs.files, fs.dirs.filter (· != d)⟩ hs'.2 ?_ ?_]
    · congr 1
      rw [List.filter_filter]
      apply List.filter_congr
      intro x _
      rw [List.contains_cons]
      cases hx : x == d
      · simp [hx, bne]
      · simp [hx, bne]
    · intro d' hd' q hq hu
      simp only [List.mem_filter] at hq
      have hqin : q ∈ d :: S :=
        hc d' (List.mem_cons_of_mem _ hd') q hq.1 hu
      rcases List.mem_cons.mp hqin with rfl | hq'
      · exfalso
        have := hq.2
        simp [bne] at this
      · exact hq'
    · intro d' hd' kv hkv
      exact hfiles d' (List.mem_cons_of_mem _ hd') kv hkv

theorem not_under_marker {spath d : String} (hd : underDir spath d = true)
    (name : String) (hname : ('/' : Char) ∉ name.data) :
    underDir d (pathJoin spath name) = false := by
  cases hu : underDir d (pathJoin spath name)
  · rfl
  · exfalso
    obtain ⟨r, hr⟩ := underDir_decomp hd
    obtain ⟨t, ht⟩ := underDir_decomp hu
    have hpj : (pathJoin spath name).data = spath.data ++ '/' :: name.data := by
      unfold pathJoin
      rw [String.data_append, String.data_append]
      simp
    rw [hpj, hr] at ht
    have h2 := ht
    rw [List.append_assoc] at h2
    have h3 := (List.append_right_inj spath.data).mp h2
    have h4 : name.data = r ++ '/' :: t := by
      simpa using h3
    apply hname
    rw [h4]
    exact List.mem_append_right r (List.mem_cons_self _ _)

/-- C6 (amended): `remove_finished` on a sample directory is unchanged when
the `FINISHED_AND_DELIVERED` marker is absent (no file deleted, no marker
written) and when a `FINISHED_AND_REMOVED` marker is already present
(idempotent no-op); otherwise, with confirmation and `dry_run` unset, every
file except the `FINISHED_AND_DELIVERED` marker is unlinked, directories are
attempted in descending lexicographic path order — so every directory is
removed before any of its ancestors (rather than in strict path-depth
order) — and a `FINISHED_AND_REMOVED` marker holding the UTC timestamp is
written. -/
theorem C6_remove_finished (spath utc : String) (fs : FS) :
    (∀ dr cf : Bool, fs.pathExists (pathJoin spath FINISHED_FILE) = false →
      remove_finished_sample dr cf utc spath fs = fs)
    ∧ (∀ dr cf : Bool, fs.pathExists (pathJoin spath REMOVED_FILE) = true →
        remove_finished_sample dr cf utc spath fs = fs)
    ∧ (fs.isDir spath = true →
        fs.pathExists (pathJoin spath FINISHED_FILE) = true →
        fs.pathExists (pathJoin spath REMOVED_FILE) = false →
        remove_finished_sample false true utc spath fs
          = ⟨(pathJoin spath REMOVED_FILE, utc)
              :: fs.files.filter
                  (fun kv => !underDir spath kv.1
                    || kv.1 == pathJoin spath FINISHED_FILE),
             fs.dirs.filter (fun x => !underDir spath x)⟩
        ∧ (remove_finished_dir_order fs spath).Pairwise
            (fun a b => underDir a b = false)) := by
  refine ⟨?_, ?_, ?_⟩
  · intro dr cf hfin
    by_cases hdir : fs.isDir spath = true
    · simp [remove_finished_sample, hdir, hfin]
    · have hdir' : fs.isDir spath = false := by
        cases hh : fs.isDir spath
        · rfl
        · exact absurd hh hdir
      simp [remove_finished_sample, hdir']
  · intro dr cf hrem
    by_cases hdir : fs.isDir spath = true
    · by_cases hfin : fs.pathExists (pathJoin spath FINISHED_FILE) = true
      · simp [remove_finished_sample, hdir, hfin, hrem]
      · have hfin' : fs.pathExists (pathJoin spath FINISHED_FILE) = false := by
          cases hh : fs.pathExists (pathJoin spath FINISHED_FILE)
          · rfl
          · exact absurd hh hfin
        simp [remove_finished_sample, hdir, hfin']
    · have hdir' : fs.isDir spath = false := by
        cases hh : fs.isDir spath
        · rfl
        · exact absurd hh hdir
      simp [remove_finished_sample, hdir']
  · intro hdir hfin hrem
    refine ⟨?_, dir_order_pairwise fs spath⟩
    have hstep : remove_finished_sample false true utc spath fs
        = FS.writeFile
            (rmdirPhase (remove_finished_dir_order fs spath) false
              (unlinkPhase (filtered_walk_files fs spath)
                (pathJoin spath FINISHED_FILE) false fs))
            (pathJoin spath REMOVED_FILE) utc := by
      unfold remove_finished_sample
      rw [hdir, hfin, hrem]
      simp
    have hunlink := unlinkPhase_false (filtered_walk_files fs spath)
      (pathJoin spath FINISHED_FILE) fs
    have hSmem : ∀ x, x ∈ remove_finished_dir_order fs spath
        ↔ x ∈ filtered_walk_dirs fs spath := by
      intro x
      exact (List.perm_insertionSort descStrRel (filtered_walk_dirs fs spath)).mem_iff
    have hSsorted : (remove_finished_dir_order fs spath).Sorted descStrRel :=
      List.sorted_insertionSort _ _
    have hSunder : ∀ d ∈ remove_finished_dir_order fs spath,
        underDir spath d = true := by
      intro d hd
      exact (List.mem_filter.mp ((hSmem d).mp hd)).2
    have hF1 : ∀ kv, kv ∈ (unlinkPhase (filtered_walk_files fs spath)
        (pathJoin spath FINISHED_FILE) false fs).files →
        kv ∈ fs.files ∧
          (!((filtered_walk_files fs spath).contains kv.1
            && kv.1 != pathJoin spath FINISHED_FILE)) = true := by
      intro kv hkv
      rw [hunlink] at hkv
      exact List.mem_filter.mp hkv
    have hrm := rmdirPhase_removes (remove_finished_dir_order fs spath)
      (unlinkPhase (filtered_walk_files fs spath)
        (pathJoin spath FINISHED_FILE) false fs)
      hSsorted ?_ ?_
    · rw [hstep, hrm]
      rw [hunlink]
      unfold FS.writeFile
      congr 1
      · congr 1
        have hnorem : (fs.files.filter
            (fun kv => !((filtered_walk_files fs spath).contains kv.1
              && kv.1 != pathJoin spath FINISHED_FILE))).filter
            (fun kv => kv.1 != pathJoin spath REMOVED_FILE)
            = fs.files.filter
              (fun kv => !((filtered_walk_files fs spath).contains kv.1
                && kv.1 != pathJoin spath FINISHED_FILE)) := by
          rw [List.filter_eq_self]
          intro kv hkv
          have hkv' : kv ∈ fs.files := (List.mem_filter.mp hkv).1
          cases hh : kv.1 == pathJoin spath REMOVED_FILE
          · simp [bne, hh]
          · exfalso
            have hisf : fs.isFile (pathJoin spath REMOVED_FILE) = true := by
              unfold FS.isFile
              rw [List.any_eq_true]
              exact ⟨kv, hkv', hh⟩
            rw [show fs.pathExists (pathJoin spath REMOVED_FILE)
                = (fs.isFile (pathJoin spath REMOVED_FILE)
                  || fs.isDir (pathJoin spath REMOVED_FILE)) from rfl,
              hisf, Bool.true_or] at hrem
            cases hrem
        rw [hnorem]
        apply List.filter_congr
        intro kv hkv
        have hcon : (filtered_walk_files fs spath).contains kv.1
            = underDir spath kv.1 := by
          cases hu : underDir spath kv.1
          · cases hcc : (filtered_walk_files fs spath).contains kv.1
            · rfl
            · exfalso
              have := (List.mem_filter.mp (List.elem_iff.mp hcc)).2
              rw [hu] at this
              cases this
          · apply List.elem_iff.mpr
            exact List.mem_filter.mpr ⟨List.mem_map.mpr ⟨kv, hkv, rfl⟩, hu⟩
        rw [hcon]
        cases hu : underDir spath kv.1 <;>
          cases he : kv.1 == pathJoin spath FINISHED_FILE <;>
            simp [bne, hu, he]
      · apply List.filter_congr
        intro x hx
        have hcon : (remove_finished_dir_order fs spath).contains x
            = underDir spath x := by
          cases hu : underDir spath x
          · cases hcc : (remove_finished_dir_order fs spath).contains x
            · rfl
            · exfalso
              have := (List.mem_filter.mp ((hSmem x).mp (List.elem_iff.mp hcc))).2
              rw [hu] at this
              cases this
          · apply List.elem_iff.mpr
            exact (hSmem x).mpr (List.mem_filter.mpr ⟨hx, hu⟩)
        rw [hcon]
    · intro d hd q hq hu
      rw [hunlink] at hq
      exact (hSmem q).mpr
        (List.mem_filter.mpr ⟨hq, underDir_trans (hSunder d hd) hu⟩)
    · intro d hd kv hkv
      obtain ⟨hkvf, hp1⟩ := hF1 kv hkv
      cases hu : underDir d kv.1
      · rfl
      · exfalso
        have huk : underDir spath kv.1 = true :=
          underDir_trans (hSunder d hd) hu
        have hmem : kv.1 ∈ filtered_walk_files fs spath :=
          List.mem_filter.mpr ⟨List.mem_map.mpr ⟨kv, hkvf, rfl⟩, huk⟩
        have hcon : (filtered_walk_files fs spath).contains kv.1 = true :=
          List.elem_iff.mpr hmem
        rw [hcon, Bool.true_and] at hp1
        have hkvfin : kv.1 = pathJoin spath FINISHED_FILE := by
          cases hh : kv.1 == pathJoin spath FINISHED_FILE
          · rw [bne, hh] at hp1
            cases hp1
          · exact beq_iff_eq.mp hh
        have hnm := not_under_marker (hSunder d hd) FINISHED_FILE (by decide)
        rw [hkvfin, hnm] at hu
        cases hu

/-- Witness for C6 at concrete states: a sample with no Finished marker is
untouched; one already Removed is untouched; a Finished one has its non-marker
file deleted, its directories removed, and the Removed marker written. -/
theorem C6_remove_finished_witness :
    remove_finished_sample false true "u" "s" ⟨[], ["s"]⟩ = ⟨[], ["s"]⟩
    ∧ remove_finished_sample false true "u" "s"
        ⟨[(pathJoin "s" FINISHED_FILE, "t"), (pathJoin "s" REMOVED_FILE, "t2")],
         ["s"]⟩
      = ⟨[(pathJoin "s" FINISHED_FILE, "t"), (pathJoin "s" REMOVED_FILE, "t2")],
         ["s"]⟩
    ∧ remove_finished_sample false true "u" "s"
        ⟨[(pathJoin "s" FINISHED_FILE, "t"), ("s/a/x.fastq", "d")],
         ["s", "s/a", "s/z"]⟩
      = ⟨(pathJoin "s" REMOVED_FILE, "u")
          :: [(pathJoin "s" FINISHED_FILE, "t"), ("s/a/x.fastq", "d")].filter
              (fun kv => !underDir "s" kv.1 || kv.1 == pathJoin "s" FINISHED_FILE),
         ["s", "s/a", "s/z"].filter (fun x => !underDir "s" x)⟩ :=
  ⟨(C6_remove_finished "s" "u" ⟨[], ["s"]⟩).1 false true (by decide),
   (C6_remove_finished "s" "u"
      ⟨[(pathJoin "s" FINISHED_FILE, "t"), (pathJoin "s" REMOVED_FILE, "t2")],
       ["s"]⟩).2.1 false true (by decide),
   ((C6_remove_finished "s" "u"
      ⟨[(pathJoin "s" FINISHED_FILE, "t"), ("s/a/x.fastq", "d")],
       ["s", "s/a", "s/z"]⟩).2.2 (by decide) (by decide) (by decide)).1⟩

/-- Counterexample to C6 as stated: the directory-removal order is descending
lexicographic, not descending path-depth — here the depth-1 directory `s/z`
is removed before the depth-2 directory `s/a/b`. -/
theorem C6_depth_order_counterexample :
    remove_finished_dir_order
        ⟨[(pathJoin "s" FINISHED_FILE, "t"), ("s/a/x.fastq", "d")],
         ["s", "s/a", "s/a/b", "s/z"]⟩ "s"
      = ["s/z", "s/a/b", "s/a"]
    ∧ pathDepth "s/z" < pathDepth "s/a/b" := by
  constructor
  · decide
  · decide

end Scilifelab
